import Mathlib

/-!
# Memory manager: shallow embedding and verification

Shallow embedding of `mcastiello/memory-manager`:

* the garbage-collector worker (`src/unnamed/part_000`, first document):
  `dataMap`, `garbageTimeDiff`, the message listener, `shouldBeCollected`,
  `garbageCollect`, `initialiseData`, `updateData`, `disposeData`,
  `diffReferences`, `loadReferences`, `addReference`, `removeReference`,
  `disposeReference`;
* the producer-side store (`src/src/memory-manager.js`, first document):
  `MemoryManager.create/get/set/update/dispose`, the `collectionTime`
  accessor pair, and the listener for worker events.

JavaScript objects used as data records are modelled as insertion-ordered
association lists (`JSObj`); `Map`s as insertion-ordered association lists
with the same `set`/`delete`/iteration semantics as a JS `Map`.
Property values are modelled by `JSVal` (the README restricts stored values
to primitives and arrays of primitives).  Time (`Date.now()`) is threaded
explicitly: every handled message carries the integer millisecond time at
which it is processed.

A handler that throws a `TypeError` (reading a field of `undefined`) is
modelled by a `crash` outcome carrying the state mutations and messages
that happened before the throw; an uncaught exception does not terminate a
worker, so a run continues with the partial state.
-/

namespace MemMgr

/-- JavaScript values storable as record properties: the README restricts
stored data to primitives (strings, numbers, booleans) and arrays of
primitives; `null`/`undefined` complete the picture. -/
inductive JSVal where
  | undef : JSVal
  | null : JSVal
  | bool (b : Bool) : JSVal
  | num (q : ℚ) : JSVal
  | str (s : String) : JSVal
  | arr (elems : List JSVal) : JSVal

/-- A JavaScript object literal: ordered association list of
property name to value, in enumeration order. -/
abbrev JSObj := List (String × JSVal)

/-- JavaScript strict equality `value === reference` against a string
`reference`: true only for an identical string value. -/
def JSVal.isStrEq : JSVal → String → Bool
  | .str s, t => s = t
  | _, _ => false

/-- `Array.prototype.indexOf` + `splice(i, 1)` against a string: remove the
first element strictly equal to the string, keep the array unchanged when
`indexOf` returns `-1`. -/
def spliceFirstVal : List JSVal → String → List JSVal
  | [], _ => []
  | v :: vs, a => if v.isStrEq a then vs else v :: spliceFirstVal vs a

/-- `indexOf` + `splice(i, 1)` on an array of strings: remove the first
occurrence, unchanged when absent. -/
def spliceFirstStr : List String → String → List String
  | [], _ => []
  | s :: ss, a => if s = a then ss else s :: spliceFirstStr ss a

/-- `indexOf` + `splice` on an array of strings, reporting whether the
element was found (`none` = `indexOf` returned `-1`). -/
def removeFirstStr : List String → String → Option (List String)
  | [], _ => none
  | s :: ss, a => if s = a then some ss else (removeFirstStr ss a).map (s :: ·)

/-- Lookup in an insertion-ordered map (JS `Map.get`, also property read on
an object modelled as `JSObj`). -/
def mapGet {α : Type} : List (String × α) → String → Option α
  | [], _ => none
  | (k, v) :: rest, i => if k = i then some v else mapGet rest i

/-- JS `Map.set` / property write: overwrite in place when the key exists
(keeping its insertion position), append otherwise. -/
def mapSet {α : Type} : List (String × α) → String → α → List (String × α)
  | [], i, v => [(i, v)]
  | (k, w) :: rest, i, v =>
    if k = i then (k, v) :: rest else (k, w) :: mapSet rest i v

/-- JS `Map.delete`: remove the entry with the given key. -/
def mapDelete {α : Type} : List (String × α) → String → List (String × α)
  | [], _ => []
  | (k, w) :: rest, i => if k = i then rest else (k, w) :: mapDelete rest i

/-- JS `Map.has`. -/
def mapHas {α : Type} (m : List (String × α)) (i : String) : Bool :=
  (mapGet m i).isSome

/-- `Object.assign(target, source)`: write every property of `source` onto
`target` in enumeration order. -/
def objAssign (target source : JSObj) : JSObj :=
  source.foldl (fun acc kv => mapSet acc kv.1 kv.2) target

/-- One entry of the worker's `dataMap`
(`{timestamp, data, references, referenced}`, part_000 lines 79-84):
`references` is the list of outgoing reference targets extracted from
`data`, `referenced` the list of incoming referrers. -/
structure GCNode where
  timestamp : ℤ
  data : JSObj
  references : List String
  referenced : List String

/-- Worker module state: the `dataMap` (insertion-ordered, as a JS `Map`)
and the `garbageTimeDiff` staleness threshold (initially `0`). -/
structure GCState where
  dataMap : List (String × GCNode)
  garbageTimeDiff : ℤ

/-- The worker's initial module state: empty `dataMap`,
`garbageTimeDiff = 0` (part_000 lines 12, 20); `g` generalises the
threshold for runs that begin after a `time` command was handled. -/
def initGC (g : ℤ) : GCState := ⟨[], g⟩

/-- Events posted by the worker to the main thread
(`self.postMessage`): `updated {name, index, data}` and
`delete {name, index}`. -/
inductive GCEvent where
  | updated (index : String) (data : JSObj) : GCEvent
  | deleteMsg (index : String) : GCEvent

/-- Commands posted by the store to the worker.  `update` may arrive
without a `content` field (the store's `get` sends only `{name, index}`),
hence the `Option`.  The `create` command carries the full initial record
as its `content` field (memory-manager.js lines 105-109); there is no
`pinned`/`keepAlive` field anywhere in the protocol. -/
inductive GCCommand where
  | createCmd (index : String) (content : JSObj) : GCCommand
  | updateCmd (index : String) (content : Option JSObj) : GCCommand
  | disposeCmd (index : String) : GCCommand
  | timeCmd (value : ℤ) : GCCommand
  | flushCmd : GCCommand

/-- Outcome of handling one message or tick: `ok` on normal return,
`crash` when the handler threw a `TypeError`; both carry the state
mutations and the events posted before the handler returned or threw. -/
inductive GCOutcome where
  | ok (st : GCState) (evs : List GCEvent) : GCOutcome
  | crash (st : GCState) (evs : List GCEvent) : GCOutcome

/-- The worker state an outcome leaves behind (on a crash, the partial
mutations made before the throw). -/
def GCOutcome.state : GCOutcome → GCState
  | GCOutcome.ok s _ => s
  | GCOutcome.crash s _ => s

/-- The events an outcome posted (on a crash, those posted before the
throw). -/
def GCOutcome.events : GCOutcome → List GCEvent
  | GCOutcome.ok _ e => e
  | GCOutcome.crash _ e => e

/-- `shouldBeCollected` (part_000 lines 58-63): collectable iff the
`referenced` (incoming) list is empty and the age exceeds the threshold. -/
def shouldBeCollected (now gtd : ℤ) (data : GCNode) : Bool :=
  data.referenced.length = 0 && now - data.timestamp > gtd

/-- `initialiseData` (part_000 lines 78-85): insert a node with the current
timestamp and empty data/references/referenced.  The `content` field of the
`create` message is not consulted. -/
def initialiseData (now : ℤ) (st : GCState) (index : String) : GCState :=
  { st with dataMap := mapSet st.dataMap index ⟨now, [], [], []⟩ }

/-- `loadReferences` (part_000 lines 169-189): every non-`id` property
whose value is a string naming a known node contributes one entry per
occurrence; an array property contributes one entry per matching element. -/
def loadReferences (data : JSObj) (m : List (String × GCNode)) : List String :=
  data.foldl
    (fun acc kv =>
      if kv.1 = "id" then acc
      else
        match kv.2 with
        | .str s => if mapHas m s then acc ++ [s] else acc
        | .arr elems =>
          acc ++ elems.foldl
            (fun acc2 e =>
              match e with
              | JSVal.str s => if mapHas m s then acc2 ++ [s] else acc2
              | _ => acc2) []
        | _ => acc)
    []

/-- One iteration of the `diffReferences` loop: `id = list.pop()`,
`index = added.indexOf(id)`; on a hit splice it out of `added`, on a miss
push it onto `removed`. -/
def diffStep (p : List String × List String) (id : String) :
    List String × List String :=
  match removeFirstStr p.1 id with
  | some rest => (rest, p.2)
  | none => (p.1, p.2 ++ [id])

/-- `diffReferences` (part_000 lines 144-162): start from
`added = final.slice()`, `removed = []`, and consume the `initial` list
from its back (`list.pop()`); returns `(added, removed)`. -/
def diffReferences (initial final : List String) :
    List String × List String :=
  initial.reverse.foldl diffStep (final, [])

/-- `addReference` (part_000 lines 196-202): push `reference` onto the
`referenced` list of node `index`; no-op when `index` is unknown. -/
def addReference (st : GCState) (index reference : String) : GCState :=
  match mapGet st.dataMap index with
  | none => st
  | some c =>
    { st with
      dataMap :=
        mapSet st.dataMap index
          { c with referenced := c.referenced ++ [reference] } }

/-- `removeReference` (part_000 lines 210-220): splice the first occurrence
of `reference` out of the `referenced` list of node `index`; no-op when
`index` is unknown or `reference` is absent. -/
def removeReference (st : GCState) (index reference : String) : GCState :=
  match mapGet st.dataMap index with
  | none => st
  | some c =>
    { st with
      dataMap :=
        mapSet st.dataMap index
          { c with referenced := spliceFirstStr c.referenced reference } }

/-- `updateData` (part_000 lines 92-115): when the node exists, refresh its
timestamp; when a `content` payload is present, `Object.assign` it onto the
node's data, recompute the outgoing references, diff them against the old
list, store the new list, then apply `addReference` to every added target
and `removeReference` to every removed one, in order. -/
def updateData (now : ℤ) (st : GCState) (index : String)
    (data : Option JSObj) : GCState :=
  match mapGet st.dataMap index with
  | none => st
  | some c =>
    let c1 := { c with timestamp := now }
    match data with
    | none => { st with dataMap := mapSet st.dataMap index c1 }
    | some d =>
      let newData := objAssign c1.data d
      let c2 := { c1 with data := newData }
      let st2 := { st with dataMap := mapSet st.dataMap index c2 }
      let references := loadReferences newData st2.dataMap
      let diff := diffReferences c.references references
      let st3 :=
        { st2 with
          dataMap :=
            mapSet st2.dataMap index { c2 with references := references } }
      let st4 := diff.1.foldl (fun s t => addReference s t index) st3
      diff.2.foldl (fun s t => removeReference s t index) st4

/-- `disposeReference` (part_000 lines 227-254): `dataMap.get(index)` is
dereferenced with no existence guard, so an absent `index` throws a
`TypeError` (`none` here).  Otherwise splice `reference` out of the node's
`referenced` list, null scalar occurrences of `reference` in its data,
splice it out of array occurrences, and post
`updated {index, data}`. -/
def disposeReference (st : GCState) (index reference : String) :
    Option (GCState × GCEvent) :=
  match mapGet st.dataMap index with
  | none => none
  | some c =>
    let referenced := spliceFirstStr c.referenced reference
    let data :=
      c.data.map fun kv =>
        if kv.2.isStrEq reference then (kv.1, JSVal.null)
        else
          match kv.2 with
          | JSVal.arr elems => (kv.1, JSVal.arr (spliceFirstVal elems reference))
          | _ => kv
    ({ st with
        dataMap :=
          mapSet st.dataMap index
            { c with referenced := referenced, data := data } },
      GCEvent.updated index data)

/-- The `for (let reference of content.references)` loop of `disposeData`:
`disposeReference` for each outgoing target of the node being disposed; a
`TypeError` aborts the loop with the mutations and events so far. -/
def disposeLoop (index : String) :
    GCState → List GCEvent → List String → GCOutcome
  | st, evs, [] => GCOutcome.ok st evs
  | st, evs, r :: rest =>
    match disposeReference st r index with
    | none => GCOutcome.crash st evs
    | some (st2, ev) => disposeLoop index st2 (evs ++ [ev]) rest

/-- `disposeData` (part_000 lines 121-136): no-op when the node is absent
(`if (content)`); otherwise run `disposeReference` over the node's
outgoing `references`, delete the node from the map, and only then post
`delete {index}`. -/
def disposeData (st : GCState) (index : String) : GCOutcome :=
  match mapGet st.dataMap index with
  | none => GCOutcome.ok st []
  | some c =>
    match disposeLoop index st [] c.references with
    | GCOutcome.ok st2 evs =>
      GCOutcome.ok { st2 with dataMap := mapDelete st2.dataMap index }
        (evs ++ [GCEvent.deleteMsg index])
    | GCOutcome.crash st2 evs => GCOutcome.crash st2 evs

/-- One step of the sweep's `dataMap.forEach`: skip keys deleted earlier in
the pass, test `shouldBeCollected` on the node's current content, dispose
on success; a crash aborts the remaining iterations. -/
def sweepStep (now : ℤ) : GCOutcome → String → GCOutcome
  | GCOutcome.crash s e, _ => GCOutcome.crash s e
  | GCOutcome.ok s e, key =>
    match mapGet s.dataMap key with
    | none => GCOutcome.ok s e
    | some c =>
      if shouldBeCollected now s.garbageTimeDiff c then
        match disposeData s key with
        | GCOutcome.ok s2 e2 => GCOutcome.ok s2 (e ++ e2)
        | GCOutcome.crash s2 e2 => GCOutcome.crash s2 (e ++ e2)
      else GCOutcome.ok s e

/-- `garbageCollect` (part_000 lines 70-72): `forEach` over the map in
insertion order, disposing every entry that `shouldBeCollected`. -/
def garbageCollect (now : ℤ) (st : GCState) : GCOutcome :=
  (st.dataMap.map Prod.fst).foldl (sweepStep now) (GCOutcome.ok st [])

/-- The worker's message listener (part_000 lines 26-52).  `create` ignores
the carried content; `flush` saves the threshold, zeroes it, runs one
`garbageCollect` pass and restores the saved value — unless the pass
throws, in which case the restoring assignment is never reached. -/
def handleMessage (now : ℤ) (st : GCState) : GCCommand → GCOutcome
  | GCCommand.createCmd index _ => GCOutcome.ok (initialiseData now st index) []
  | GCCommand.updateCmd index content =>
    GCOutcome.ok (updateData now st index content) []
  | GCCommand.disposeCmd index => disposeData st index
  | GCCommand.timeCmd v => GCOutcome.ok { st with garbageTimeDiff := v } []
  | GCCommand.flushCmd =>
    let saved := st.garbageTimeDiff
    match garbageCollect now { st with garbageTimeDiff := 0 } with
    | GCOutcome.ok s2 evs =>
      GCOutcome.ok { s2 with garbageTimeDiff := saved } evs
    | GCOutcome.crash s2 evs => GCOutcome.crash s2 evs

/-- What drives the worker: a message from the store, or a tick of the
`setInterval` sweep loop (part_000 line 23). -/
inductive GCInput where
  | msg (c : GCCommand) : GCInput
  | tick : GCInput

/-- The fixed sweep cadence: `setInterval(() => garbageCollect(), 500)`
(part_000 line 23); no message handler changes it. -/
def tickInterval : ℤ := 500

/-- Dispatch one input: a message goes through the message listener, a
timer tick runs `garbageCollect` at the current threshold. -/
def inputOutcome (now : ℤ) (st : GCState) : GCInput → GCOutcome
  | GCInput.msg c => handleMessage now st c
  | GCInput.tick => garbageCollect now st

/-- Handle one input at time `now`.  An uncaught exception fires the
worker's error event but does not terminate the worker, so a crash leaves
the partial state in place and the run continues. -/
def stepInput (now : ℤ) (st : GCState) (inp : GCInput) :
    GCState × List GCEvent :=
  ((inputOutcome now st inp).state, (inputOutcome now st inp).events)

/-- Run the worker over a list of timestamped inputs, accumulating the
posted events in order. -/
def runGC : GCState → List (ℤ × GCInput) → GCState × List GCEvent
  | st, [] => (st, [])
  | st, p :: rest =>
    let r := stepInput p.1 st p.2
    let r2 := runGC r.1 rest
    (r2.1, r.2 ++ r2.2)

/-! ## The producer-side store (`src/src/memory-manager.js`) -/

/-- A value held in the store's `dataMap`: normally a record object, but
the `updated`-event listener can store `undefined` (see `storeOnEvent`). -/
inductive SVal where
  | undefV : SVal
  | recObj (r : JSObj) : SVal

/-- Store module state: the `IndexMap` correlating ids with carrier
objects (carriers modelled as opaque numeric tokens), the `dataMap` of
records, and the module-level `collectionTime` (initially `5000`,
memory-manager.js line 45). -/
structure StoreState where
  indexReference : List (String × Nat)
  dataMap : List (String × SVal)
  collectionTime : ℤ

/-- The store's initial module state. -/
def initStore : StoreState := ⟨[], [], 5000⟩

/-- An argument that is either an id string or a carrier object
(`typeof reference === "string" ? reference : indexReference.get(reference)`). -/
abbrev StoreRef := Sum String Nat

/-- `IndexMap.get` on a carrier object: the `WeakMap` lookup carrier → id. -/
def carrierLookup (st : StoreState) (c : Nat) : Option String :=
  (st.indexReference.find? (fun p => p.2 = c)).map Prod.fst

/-- Resolve a `String|Object` reference to an index
(`typeof reference === "string" ? reference : indexReference.get(reference)`). -/
def resolveIndex (st : StoreState) : StoreRef → Option String
  | Sum.inl s => some s
  | Sum.inr c => carrierLookup st c

/-- `const data = index && dataMap.get(index)` followed by the `if (data)`
truthiness test: yields the record only when the index is a non-empty
string and the stored value is an object (a stored `undefined` is falsy). -/
def lookupData (st : StoreState) : Option String → Option JSObj
  | none => none
  | some i =>
    if i = "" then none
    else
      match mapGet st.dataMap i with
      | some (SVal.recObj r) => some r
      | _ => none

/-- `MemoryManager.update` (memory-manager.js lines 161-174): resolve the
index; when a record is cached, `Object.assign(data, content)` and post a
single `update {index, content: data}` command carrying the full merged
record. -/
def storeUpdateCore (st : StoreState) (ref : StoreRef) (content : JSObj) :
    StoreState × List GCCommand :=
  match resolveIndex st ref with
  | none => (st, [])
  | some i =>
    if i = "" then (st, [])
    else
      match mapGet st.dataMap i with
      | some (SVal.recObj r) =>
        let merged := objAssign r content
        ({ st with dataMap := mapSet st.dataMap i (SVal.recObj merged) },
          [GCCommand.updateCmd i (some merged)])
      | _ => (st, [])

/-- `MemoryManager.create` (memory-manager.js lines 92-111), with the
fresh id produced by the external `generateUUID` passed in as `fresh`:
`content || {}`; if the carrier is already correlated, delegate to
`update`; otherwise build `Object.assign({id}, content)`, register the
correlation, cache the record, and post a single
`create {index, content}` command. -/
def storeCreate (fresh : String) (st : StoreState) (carrier : Nat)
    (content : Option JSObj) : StoreState × List GCCommand :=
  let content := content.getD []
  if (carrierLookup st carrier).isSome then
    storeUpdateCore st (Sum.inr carrier) content
  else
    let data := objAssign [("id", JSVal.str fresh)] content
    ({ st with
        indexReference := mapSet st.indexReference fresh carrier,
        dataMap := mapSet st.dataMap fresh (SVal.recObj data) },
      [GCCommand.createCmd fresh data])

/-- `MemoryManager.set` (memory-manager.js lines 139-154): resolve the
index; when a record is cached, write `data[property] = value` and post
`update {index, content: {[property]: value}}`. -/
def storeSet (st : StoreState) (ref : StoreRef) (property : String)
    (value : JSVal) : StoreState × List GCCommand :=
  match resolveIndex st ref with
  | none => (st, [])
  | some i =>
    if i = "" then (st, [])
    else
      match mapGet st.dataMap i with
      | some (SVal.recObj r) =>
        ({ st with dataMap := mapSet st.dataMap i (SVal.recObj (mapSet r property value)) },
          [GCCommand.updateCmd i (some [(property, value)])])
      | _ => (st, [])

/-- `MemoryManager.get` (memory-manager.js lines 119-131): when a record is
cached, post a contentless `update {index}` (a touch) and return
`data[property]`; otherwise return `undefined` and post nothing. -/
def storeGet (st : StoreState) (ref : StoreRef) (property : String) :
    JSVal × List GCCommand :=
  match resolveIndex st ref with
  | none => (JSVal.undef, [])
  | some i =>
    if i = "" then (JSVal.undef, [])
    else
      match mapGet st.dataMap i with
      | some (SVal.recObj r) =>
        ((mapGet r property).getD JSVal.undef,
          [GCCommand.updateCmd i none])
      | _ => (JSVal.undef, [])

/-- `MemoryManager.dispose` (memory-manager.js lines 198-207): post
`dispose {index}` whenever the resolved index is truthy, known or not. -/
def storeDispose (st : StoreState) (ref : StoreRef) : List GCCommand :=
  match resolveIndex st ref with
  | none => []
  | some i => if i = "" then [] else [GCCommand.disposeCmd i]

/-- JavaScript `Math.round`: half-way cases round toward positive
infinity. -/
def jsRound (q : ℚ) : ℤ := ⌊q + 1 / 2⌋

/-- The `collectionTime` setter (memory-manager.js lines 221-231).  The
host-primitive `Number()` coercion of the assigned value is passed in as
`n` (`none` encodes `NaN`): a `NaN` result is ignored, otherwise the
rounded value is stored and posted as `time {value}`. -/
def storeSetCollectionTime (st : StoreState) (n : Option ℚ) :
    StoreState × List GCCommand :=
  match n with
  | none => (st, [])
  | some q =>
    ({ st with collectionTime := jsRound q },
      [GCCommand.timeCmd (jsRound q)])

/-- The `collectionTime` getter (memory-manager.js lines 213-215). -/
def storeGetCollectionTime (st : StoreState) : ℤ := st.collectionTime

/-- A worker→store message as it crosses the wire: the `name` and `index`
fields plus the values found under the `"content"` and `"data"` keys
 (`none` = field absent, i.e. reading it yields `undefined`). -/
structure WireMsg where
  name : String
  index : String
  content : Option JSObj
  dataF : Option JSObj

/-- The exact payloads the worker posts (part_000 lines 131-134 and
249-253): `delete` messages carry `{name, index}`; `updated` messages
carry the rewritten record under the key `"data"` — there is no
`"content"` field. -/
def wireOfEvent : GCEvent → WireMsg
  | GCEvent.updated index data =>
    { name := "updated", index := index, content := none, dataF := some data }
  | GCEvent.deleteMsg index =>
    { name := "delete", index := index, content := none, dataF := none }

/-- Coerce the value read from a message field into a store `dataMap`
value: an absent field reads as `undefined`. -/
def svalOfField : Option JSObj → SVal
  | none => SVal.undefV
  | some r => SVal.recObj r

/-- The store's `gc.addEventListener("message", ...)` handler
(memory-manager.js lines 48-58): on `updated`,
`dataMap.set(event.data.index, event.data.content)` — it reads the
`"content"` field; on `delete`, drop the correlation entry and the cached
record. -/
def storeOnEvent (st : StoreState) (w : WireMsg) : StoreState :=
  if w.name = "updated" then
    { st with dataMap := mapSet st.dataMap w.index (svalOfField w.content) }
  else if w.name = "delete" then
    { st with
        indexReference := mapDelete st.indexReference w.index,
        dataMap := mapDelete st.dataMap w.index }
  else st

/-- A JS call `Memory.create(object, content, keepAlive)` — as performed by
the test suite's keep-alive tests — passes a third argument to the
two-parameter `MemoryManager.create`; JavaScript drops the extra argument
at the call boundary. -/
def storeCreateKeepAlive (fresh : String) (st : StoreState) (carrier : Nat)
    (content : Option JSObj) (_keepAlive : Bool) : StoreState × List GCCommand :=
  storeCreate fresh st carrier content

/-- Modelled from the spec: a `MemoryManager.flush` method is absent from
the provided `memory-manager.js` source, although the test suite and the
README call `Memory.flush()` / `manager.flush()`; per spec §4.1
("`flush()`: sends `flush{}`") it posts the bare `flush` command. -/
def storeFlush : List GCCommand := [GCCommand.flushCmd]

/-- Apply `storeSet` once per key of `content`, in enumeration order,
collecting the posted commands — the elementwise reading of
`MemoryManager.update` given in the spec. -/
def storeSetEach (st : StoreState) (ref : StoreRef) (content : JSObj) :
    StoreState × List GCCommand :=
  content.foldl
    (fun acc kv =>
      let r := storeSet acc.1 ref kv.1 kv.2
      (r.1, acc.2 ++ r.2))
    (st, [])

/-- Occurrence count of a string in a list. -/
def countStr : List String → String → Nat
  | [], _ => 0
  | s :: ss, a => (if s = a then 1 else 0) + countStr ss a

/-- Number of `delete {id}` events for a given id in an event trace. -/
def countDelete : List GCEvent → String → Nat
  | [], _ => 0
  | GCEvent.deleteMsg i :: evs, id => (if i = id then 1 else 0) + countDelete evs id
  | _ :: evs, id => countDelete evs id

/-- Whether an input is a `create` command for the given id. -/
def inputCreates : ℤ × GCInput → String → Bool
  | (_, GCInput.msg (GCCommand.createCmd i _)), id => i = id
  | _, _ => false

/-- Number of `create {id}` commands for a given id in an input list. -/
def createCount : List (ℤ × GCInput) → String → Nat
  | [], _ => 0
  | p :: rest, id => (if inputCreates p id then 1 else 0) + createCount rest id

/-- Invariant carried along a sweep pass, relative to the state `st0` the
pass started from: keys only shrink, the threshold is untouched, and every
id is deleted at most once, with a deleted id present in `st0` and absent
afterwards. -/
def SweepOK (st0 : GCState) (o : GCOutcome) : Prop :=
  List.Sublist (o.state.dataMap.map Prod.fst) (st0.dataMap.map Prod.fst) ∧
  o.state.garbageTimeDiff = st0.garbageTimeDiff ∧
  (∀ id, countDelete o.events id ≤ 1) ∧
  (∀ id, 1 ≤ countDelete o.events id →
    mapHas st0.dataMap id = true ∧ mapHas o.state.dataMap id = false)

/-! ### Concrete fixtures used by the claim theorems -/

/-- The README's cascade scenario, in protocol form: create `a`, create
`b`, store `a`'s id in `b` (establishing the edge `b → a`), then
explicitly dispose `a`. -/
def c1Inputs : List (ℤ × GCInput) :=
  [(0, GCInput.msg (GCCommand.createCmd "a" [("id", JSVal.str "a")])),
   (0, GCInput.msg (GCCommand.createCmd "b" [("id", JSVal.str "b")])),
   (0, GCInput.msg (GCCommand.updateCmd "b" (some [("ref", JSVal.str "a")]))),
   (1, GCInput.msg (GCCommand.disposeCmd "a"))]

/-- The worker state after `c1Inputs`: only `b` remains, its data and its
outgoing `references` still naming the removed `a`. -/
def c9State : GCState := (runGC (initGC 1000) c1Inputs).1

/-- A worker with a single unreferenced node whose last touch is at time
`5`, threshold `1000`. -/
def c5State : GCState := ⟨[("a", ⟨5, [], [], []⟩)], 1000⟩

/-- A store with one correlated record `a`, as after `create` of a carrier
`1`. -/
def st3 : StoreState :=
  ⟨[("a", 1)], [("a", SVal.recObj [("id", JSVal.str "a")])], 5000⟩

/-- A worker knowing only node `a`, threshold `100`. -/
def gcWithA : GCState := ⟨[("a", ⟨0, [], [], []⟩)], 100⟩

/-- A store with a record `b` whose `ref` property names `a`. -/
def st4 : StoreState :=
  ⟨[("b", 2)], [("b", SVal.recObj [("ref", JSVal.str "a")])], 5000⟩

/-- A store with one record `x` holding only its `id` field. -/
def st7 : StoreState :=
  ⟨[("x", 7)], [("x", SVal.recObj [("id", JSVal.str "x")])], 5000⟩

/-- Protocol form of storing the same target twice in one record:
`m.p = t` and `m.q = t`. -/
def c6Inputs : List (ℤ × GCInput) :=
  [(0, GCInput.msg (GCCommand.createCmd "t" [("id", JSVal.str "t")])),
   (0, GCInput.msg (GCCommand.createCmd "m" [("id", JSVal.str "m")])),
   (0, GCInput.msg (GCCommand.updateCmd "m"
      (some [("p", JSVal.str "t"), ("q", JSVal.str "t")])))]


/-! ## Lemmas: insertion-ordered maps -/

lemma mapGet_mapSet_self {α : Type} (m : List (String × α)) (i : String) (v : α) :
    mapGet (mapSet m i v) i = some v := by
  induction m with
  | nil => simp [mapSet, mapGet]
  | cons kv rest ih =>
    obtain ⟨k, w⟩ := kv
    by_cases h : k = i
    · simp [mapSet, mapGet, h]
    · simpa [mapSet, mapGet, h] using ih

lemma mapGet_mapSet_ne {α : Type} (m : List (String × α)) {i j : String}
    (v : α) (h : i ≠ j) : mapGet (mapSet m i v) j = mapGet m j := by
  induction m with
  | nil => simp [mapSet, mapGet, h]
  | cons kv rest ih =>
    obtain ⟨k, w⟩ := kv
    by_cases h2 : k = i
    · subst h2; simp [mapSet, mapGet, h]
    · simp [mapSet, mapGet, h2, ih]

lemma mapHas_mapSet {α : Type} (m : List (String × α)) (i j : String) (v : α) :
    mapHas (mapSet m i v) j = (mapHas m j || decide (i = j)) := by
  by_cases h : i = j
  · subst h; simp [mapHas, mapGet_mapSet_self]
  · simp [mapHas, mapGet_mapSet_ne m v h, h]

lemma mapHas_iff_mem_keys {α : Type} (m : List (String × α)) (i : String) :
    mapHas m i = true ↔ i ∈ m.map Prod.fst := by
  induction m with
  | nil => simp [mapHas, mapGet]
  | cons kv rest ih =>
    obtain ⟨k, w⟩ := kv
    by_cases h : k = i
    · simp [mapHas, mapGet, h]
    · have h2 : mapHas ((k, w) :: rest) i = mapHas rest i := by
        simp [mapHas, mapGet, h]
      rw [h2, ih]
      simp only [List.map_cons, List.mem_cons]
      constructor
      · intro h3; exact Or.inr h3
      · rintro (h3 | h3)
        · exact absurd h3.symm h
        · exact h3

lemma mapGet_eq_none_of_not_has {α : Type} {m : List (String × α)} {i : String}
    (h : mapHas m i = false) : mapGet m i = none := by
  cases h2 : mapGet m i with
  | none => rfl
  | some v => rw [mapHas, h2] at h; simp at h

lemma keys_mapSet_of_has {α : Type} (m : List (String × α)) (i : String)
    (v : α) (h : mapHas m i = true) :
    (mapSet m i v).map Prod.fst = m.map Prod.fst := by
  induction m with
  | nil => simp [mapHas, mapGet] at h
  | cons kv rest ih =>
    obtain ⟨k, w⟩ := kv
    by_cases h2 : k = i
    · simp [mapSet, h2]
    · have h3 : mapHas rest i = true := by
        simpa [mapHas, mapGet, h2] using h
      simp [mapSet, h2, ih h3]

lemma keys_mapSet_of_not_has {α : Type} (m : List (String × α)) (i : String)
    (v : α) (h : mapHas m i = false) :
    (mapSet m i v).map Prod.fst = m.map Prod.fst ++ [i] := by
  induction m with
  | nil => simp [mapSet]
  | cons kv rest ih =>
    obtain ⟨k, w⟩ := kv
    by_cases h2 : k = i
    · simp [mapHas, mapGet, h2] at h
    · have h3 : mapHas rest i = false := by
        simpa [mapHas, mapGet, h2] using h
      simp [mapSet, h2, ih h3]

lemma nodup_keys_mapSet {α : Type} (m : List (String × α)) (i : String)
    (v : α) (h : (m.map Prod.fst).Nodup) :
    ((mapSet m i v).map Prod.fst).Nodup := by
  by_cases h2 : mapHas m i = true
  · rwa [keys_mapSet_of_has m i v h2]
  · rw [keys_mapSet_of_not_has m i v (by simpa using h2)]
    have h3 : i ∉ m.map Prod.fst := by
      rw [← mapHas_iff_mem_keys]; simpa using h2
    simpa using List.Nodup.append h (List.nodup_singleton i) (by simpa using h3)

lemma keys_mapDelete_sublist {α : Type} (m : List (String × α)) (i : String) :
    List.Sublist ((mapDelete m i).map Prod.fst) (m.map Prod.fst) := by
  induction m with
  | nil => simp [mapDelete]
  | cons kv rest ih =>
    obtain ⟨k, w⟩ := kv
    by_cases h : k = i
    · simp only [mapDelete, if_pos h, List.map_cons]
      exact List.sublist_cons_self _ _
    · simp only [mapDelete, if_neg h, List.map_cons]
      exact List.Sublist.cons₂ _ ih

lemma mapGet_mapDelete_self {α : Type} (m : List (String × α)) (i : String)
    (h : (m.map Prod.fst).Nodup) : mapGet (mapDelete m i) i = none := by
  induction m with
  | nil => simp [mapDelete, mapGet]
  | cons kv rest ih =>
    obtain ⟨k, w⟩ := kv
    rw [List.map_cons, List.nodup_cons] at h
    by_cases h2 : k = i
    · subst h2
      simp only [mapDelete, if_pos rfl]
      apply mapGet_eq_none_of_not_has
      rw [← Bool.not_eq_true, mapHas_iff_mem_keys]
      exact h.1
    · simp only [mapDelete, if_neg h2, mapGet, if_neg h2]
      exact ih h.2

lemma mapHas_false_of_sublist {α : Type} {m1 m2 : List (String × α)}
    (h : List.Sublist (m1.map Prod.fst) (m2.map Prod.fst)) {i : String}
    (h2 : mapHas m2 i = false) : mapHas m1 i = false := by
  by_contra h3
  have h4 : mapHas m1 i = true := by simpa using h3
  have h5 := (mapHas_iff_mem_keys m2 i).mpr (h.mem ((mapHas_iff_mem_keys m1 i).mp h4))
  simp [h5] at h2

/-! ## Lemmas: occurrence counting and the reference diff -/

lemma countStr_append (l1 l2 : List String) (a : String) :
    countStr (l1 ++ l2) a = countStr l1 a + countStr l2 a := by
  induction l1 with
  | nil => simp [countStr]
  | cons s ss ih =>
    simp only [List.cons_append, countStr, List.append_eq]
    omega

lemma countStr_reverse (l : List String) (a : String) :
    countStr l.reverse a = countStr l a := by
  induction l with
  | nil => rfl
  | cons s ss ih =>
    simp only [List.reverse_cons, countStr_append, countStr, ih]
    omega

lemma removeFirstStr_none {l : List String} {a : String}
    (h : removeFirstStr l a = none) : countStr l a = 0 := by
  induction l with
  | nil => rfl
  | cons s ss ih =>
    by_cases h2 : s = a
    · simp [removeFirstStr, h2] at h
    · simp only [removeFirstStr, if_neg h2] at h
      cases h3 : removeFirstStr ss a with
      | none => simp [countStr, h2, ih h3]
      | some r => simp [h3] at h

lemma removeFirstStr_some :
    ∀ {l r : List String} {a : String}, removeFirstStr l a = some r →
      ∀ b, countStr r b + (if a = b then 1 else 0) = countStr l b := by
  intro l
  induction l with
  | nil => intro r a h; simp [removeFirstStr] at h
  | cons s ss ih =>
    intro r a h b
    by_cases h2 : s = a
    · subst h2
      simp [removeFirstStr] at h
      subst h
      by_cases h4 : s = b <;> simp [countStr, h4]
      all_goals omega
    · simp only [removeFirstStr, if_neg h2] at h
      cases h3 : removeFirstStr ss a with
      | none => rw [h3] at h; simp at h
      | some r2 =>
        simp [h3] at h
        subst h
        have h5 := ih h3 b
        by_cases h6 : a = b <;> by_cases h7 : s = b <;>
          simp [countStr, h6, h7] at h5 ⊢ <;> omega

lemma diff_fold_count (l : List String) :
    ∀ (added removed : List String) (a : String),
      countStr (l.foldl diffStep (added, removed)).1 a
          = countStr added a - countStr l a ∧
      countStr (l.foldl diffStep (added, removed)).2 a
          = countStr removed a + (countStr l a - countStr added a) := by
  induction l with
  | nil => intro added removed a; simp [countStr]
  | cons id rest ih =>
    intro added removed a
    simp only [List.foldl_cons]
    rcases h : removeFirstStr added id with _ | r
    · have h2 : countStr added id = 0 := removeFirstStr_none h
      have h3 := ih added (removed ++ [id]) a
      simp only [diffStep, h]
      refine ⟨?_, ?_⟩
      · rw [h3.1]
        by_cases h4 : id = a
        · subst h4; simp [countStr]; omega
        · simp [countStr, h4]
      · rw [h3.2, countStr_append]
        by_cases h4 : id = a
        · subst h4; simp [countStr]; omega
        · simp [countStr, h4]
    · have h5 := removeFirstStr_some h a
      have h6 := removeFirstStr_some h id
      have h3 := ih r removed a
      simp only [diffStep, h]
      refine ⟨?_, ?_⟩
      · rw [h3.1]
        by_cases h4 : id = a
        · subst h4; simp [countStr] at h5 ⊢; omega
        · simp [countStr, h4, Ne.symm h4] at h5 ⊢; omega
      · rw [h3.2]
        by_cases h4 : id = a
        · subst h4; simp [countStr] at h5 ⊢; omega
        · simp [countStr, h4, Ne.symm h4] at h5 ⊢; omega

lemma diffReferences_count (initial final : List String) (a : String) :
    countStr (diffReferences initial final).1 a
        = countStr final a - countStr initial a ∧
    countStr (diffReferences initial final).2 a
        = countStr initial a - countStr final a := by
  have h := diff_fold_count initial.reverse final [] a
  rw [countStr_reverse] at h
  simpa [diffReferences, countStr] using h

/-! ## Lemmas: events posted by the removal path -/

lemma countDelete_append (e1 e2 : List GCEvent) (id : String) :
    countDelete (e1 ++ e2) id = countDelete e1 id + countDelete e2 id := by
  induction e1 with
  | nil => simp [countDelete]
  | cons ev rest ih =>
    cases ev with
    | updated i d => simpa [countDelete] using ih
    | deleteMsg i => simp only [List.cons_append, countDelete, List.append_eq, ih]; omega

lemma countDelete_pos_of_mem {evs : List GCEvent} {id : String}
    (h : GCEvent.deleteMsg id ∈ evs) : 1 ≤ countDelete evs id := by
  induction evs with
  | nil => simp at h
  | cons ev rest ih =>
    rcases List.mem_cons.mp h with h2 | h2
    · rw [← h2]
      simp [countDelete]
    · cases ev with
      | updated i d => simpa [countDelete] using ih h2
      | deleteMsg i =>
        simp only [countDelete]
        have h3 := ih h2
        omega

lemma disposeReference_spec {st : GCState} {t r : String} {st2 : GCState}
    {ev : GCEvent} (h : disposeReference st t r = some (st2, ev)) :
    st2.dataMap.map Prod.fst = st.dataMap.map Prod.fst ∧
    st2.garbageTimeDiff = st.garbageTimeDiff ∧
    ∀ id, ev ≠ GCEvent.deleteMsg id := by
  rw [disposeReference] at h
  cases h2 : mapGet st.dataMap t with
  | none => rw [h2] at h; simp at h
  | some c =>
    rw [h2] at h
    simp only [Option.some.injEq, Prod.mk.injEq] at h
    obtain ⟨h3, h4⟩ := h
    subst h3
    subst h4
    refine ⟨?_, rfl, ?_⟩
    · exact keys_mapSet_of_has _ _ _ (by simp [mapHas, h2])
    · intro id h5
      simp at h5

lemma disposeLoop_spec (index : String) :
    ∀ (refs : List String) (st : GCState) (evs0 : List GCEvent),
      (disposeLoop index st evs0 refs).state.dataMap.map Prod.fst
          = st.dataMap.map Prod.fst ∧
      (disposeLoop index st evs0 refs).state.garbageTimeDiff
          = st.garbageTimeDiff ∧
      ∀ id, countDelete (disposeLoop index st evs0 refs).events id
          = countDelete evs0 id := by
  intro refs
  induction refs with
  | nil => intro st evs0; exact ⟨rfl, rfl, fun _ => rfl⟩
  | cons r rest ih =>
    intro st evs0
    cases h : disposeReference st r index with
    | none =>
      simp only [disposeLoop, h]
      exact ⟨rfl, rfl, fun _ => rfl⟩
    | some p =>
      obtain ⟨st2, ev⟩ := p
      have h2 := disposeReference_spec h
      have h3 := ih st2 (evs0 ++ [ev])
      simp only [disposeLoop, h]
      refine ⟨h3.1.trans h2.1, h3.2.1.trans h2.2.1, ?_⟩
      intro id
      rw [h3.2.2 id, countDelete_append]
      have h4 : countDelete [ev] id = 0 := by
        cases ev with
        | updated i d => rfl
        | deleteMsg j => exact absurd rfl (h2.2.2 j)
      omega

lemma disposeData_spec (st : GCState) (index : String)
    (hnd : (st.dataMap.map Prod.fst).Nodup) :
    List.Sublist ((disposeData st index).state.dataMap.map Prod.fst)
        (st.dataMap.map Prod.fst) ∧
    (disposeData st index).state.garbageTimeDiff = st.garbageTimeDiff ∧
    (∀ id, countDelete (disposeData st index).events id ≤ 1) ∧
    (∀ id, 1 ≤ countDelete (disposeData st index).events id →
      mapHas st.dataMap index = true ∧ index = id ∧
      mapHas (disposeData st index).state.dataMap id = false) := by
  cases h : mapGet st.dataMap index with
  | none =>
    simp only [disposeData, h]
    exact ⟨List.Sublist.refl _, rfl, fun _ => by simp [GCOutcome.events, countDelete],
      fun id h2 => by simp [GCOutcome.events, countDelete] at h2⟩
  | some c =>
    have hl := disposeLoop_spec index c.references st []
    cases h2 : disposeLoop index st [] c.references with
    | ok st2 evs =>
      rw [h2] at hl
      simp only [GCOutcome.state, GCOutcome.events] at hl
      have hkeys : st2.dataMap.map Prod.fst = st.dataMap.map Prod.fst := hl.1
      have hcnt : ∀ id, countDelete evs id = 0 := fun id => hl.2.2 id
      simp only [disposeData, h, h2, GCOutcome.state, GCOutcome.events]
      refine ⟨?_, hl.2.1, ?_, ?_⟩
      · rw [← hkeys]
        exact keys_mapDelete_sublist _ _
      · intro id
        rw [countDelete_append, hcnt id]
        simp only [countDelete]
        split <;> omega
      · intro id h3
        rw [countDelete_append, hcnt id] at h3
        simp only [countDelete] at h3
        have h4 : index = id := by
          by_contra h5
          rw [if_neg h5] at h3
          simp [countDelete] at h3
        subst h4
        refine ⟨by simp [mapHas, h], rfl, ?_⟩
        have h5 : (st2.dataMap.map Prod.fst).Nodup := by rw [hkeys]; exact hnd
        simp [mapHas, mapGet_mapDelete_self st2.dataMap index h5]
    | crash st2 evs =>
      rw [h2] at hl
      simp only [GCOutcome.state, GCOutcome.events] at hl
      simp only [disposeData, h, h2, GCOutcome.state, GCOutcome.events]
      refine ⟨?_, hl.2.1, ?_, ?_⟩
      · rw [hl.1]
      · intro id; rw [hl.2.2 id]; simp [countDelete]
      · intro id h3; rw [hl.2.2 id] at h3; simp [countDelete] at h3

/-! ## Lemmas: the sweep pass -/

lemma sweepStep_pres (now : ℤ) (st0 : GCState)
    (hnd : (st0.dataMap.map Prod.fst).Nodup) (o : GCOutcome) (k : String)
    (h : SweepOK st0 o) : SweepOK st0 (sweepStep now o k) := by
  cases o with
  | crash s e => exact h
  | ok s e =>
    simp only [sweepStep]
    cases h2 : mapGet s.dataMap k with
    | none => exact h
    | some c =>
      by_cases h3 : shouldBeCollected now s.garbageTimeDiff c
      · simp only [if_pos h3]
        have hnds : (s.dataMap.map Prod.fst).Nodup := h.1.nodup hnd
        have hd := disposeData_spec s k hnds
        obtain ⟨hsub, hgtd, hcnt, hdel⟩ := h
        simp only [GCOutcome.state, GCOutcome.events] at hsub hgtd hcnt hdel
        cases h4 : disposeData s k with
        | ok s2 e2 =>
          rw [h4] at hd
          simp only [GCOutcome.state, GCOutcome.events] at hd
          refine ⟨hd.1.trans hsub, hd.2.1.trans hgtd, ?_, ?_⟩
          · intro id
            simp only [GCOutcome.events, countDelete_append]
            by_cases h5 : 1 ≤ countDelete e id
            · have h6 : mapHas s.dataMap id = false := (hdel id h5).2
              have h7 : countDelete e2 id = 0 := by
                by_contra h8
                have h9 := hd.2.2.2 id (by omega)
                rw [← h9.2.1, h9.1] at h6
                simp at h6
              have := hcnt id
              omega
            · have := hd.2.2.1 id
              omega
          · intro id h5
            simp only [GCOutcome.events, countDelete_append] at h5
            simp only [GCOutcome.state]
            by_cases h6 : 1 ≤ countDelete e2 id
            · obtain ⟨h7a, h7b, h7c⟩ := hd.2.2.2 id h6
              refine ⟨?_, h7c⟩
              rw [mapHas_iff_mem_keys] at h7a ⊢
              exact hsub.mem (h7b ▸ h7a)
            · have h7 : 1 ≤ countDelete e id := by omega
              have h8 := hdel id h7
              refine ⟨h8.1, ?_⟩
              exact mapHas_false_of_sublist hd.1 h8.2
        | crash s2 e2 =>
          rw [h4] at hd
          simp only [GCOutcome.state, GCOutcome.events] at hd
          refine ⟨hd.1.trans hsub, hd.2.1.trans hgtd, ?_, ?_⟩
          · intro id
            simp only [GCOutcome.events, countDelete_append]
            by_cases h5 : 1 ≤ countDelete e id
            · have h6 : mapHas s.dataMap id = false := (hdel id h5).2
              have h7 : countDelete e2 id = 0 := by
                by_contra h8
                have h9 := hd.2.2.2 id (by omega)
                rw [← h9.2.1, h9.1] at h6
                simp at h6
              have := hcnt id
              omega
            · have := hd.2.2.1 id
              omega
          · intro id h5
            simp only [GCOutcome.events, countDelete_append] at h5
            simp only [GCOutcome.state]
            by_cases h6 : 1 ≤ countDelete e2 id
            · obtain ⟨h7a, h7b, h7c⟩ := hd.2.2.2 id h6
              refine ⟨?_, h7c⟩
              rw [mapHas_iff_mem_keys] at h7a ⊢
              exact hsub.mem (h7b ▸ h7a)
            · have h7 : 1 ≤ countDelete e id := by omega
              have h8 := hdel id h7
              refine ⟨h8.1, ?_⟩
              exact mapHas_false_of_sublist hd.1 h8.2
      · simp only [if_neg h3]
        exact h

lemma sweep_foldl_pres (now : ℤ) (st0 : GCState)
    (hnd : (st0.dataMap.map Prod.fst).Nodup) :
    ∀ (ks : List String) (o : GCOutcome), SweepOK st0 o →
      SweepOK st0 (ks.foldl (sweepStep now) o) := by
  intro ks
  induction ks with
  | nil => intro o h; exact h
  | cons k rest ih =>
    intro o h
    exact ih _ (sweepStep_pres now st0 hnd o k h)

lemma garbageCollect_spec (now : ℤ) (st : GCState)
    (hnd : (st.dataMap.map Prod.fst).Nodup) :
    SweepOK st (garbageCollect now st) := by
  rw [garbageCollect]
  apply sweep_foldl_pres now st hnd
  exact ⟨List.Sublist.refl _, rfl, fun _ => by simp [GCOutcome.events, countDelete],
    fun id h2 => by simp [GCOutcome.events, countDelete] at h2⟩

/-! ## Lemmas: the update path preserves the key set -/

lemma addReference_keys (st : GCState) (i r : String) :
    (addReference st i r).dataMap.map Prod.fst = st.dataMap.map Prod.fst ∧
    (addReference st i r).garbageTimeDiff = st.garbageTimeDiff := by
  rw [addReference]
  cases h : mapGet st.dataMap i with
  | none => exact ⟨rfl, rfl⟩
  | some c => exact ⟨keys_mapSet_of_has _ _ _ (by simp [mapHas, h]), rfl⟩

lemma removeReference_keys (st : GCState) (i r : String) :
    (removeReference st i r).dataMap.map Prod.fst = st.dataMap.map Prod.fst ∧
    (removeReference st i r).garbageTimeDiff = st.garbageTimeDiff := by
  rw [removeReference]
  cases h : mapGet st.dataMap i with
  | none => exact ⟨rfl, rfl⟩
  | some c => exact ⟨keys_mapSet_of_has _ _ _ (by simp [mapHas, h]), rfl⟩

lemma foldl_keys_const {β : Type} (f : GCState → β → GCState)
    (hf : ∀ s b, (f s b).dataMap.map Prod.fst = s.dataMap.map Prod.fst ∧
        (f s b).garbageTimeDiff = s.garbageTimeDiff) :
    ∀ (l : List β) (s : GCState),
      (l.foldl f s).dataMap.map Prod.fst = s.dataMap.map Prod.fst ∧
      (l.foldl f s).garbageTimeDiff = s.garbageTimeDiff := by
  intro l
  induction l with
  | nil => intro s; exact ⟨rfl, rfl⟩
  | cons b rest ih =>
    intro s
    have h1 := hf s b
    have h2 := ih (f s b)
    exact ⟨h2.1.trans h1.1, h2.2.trans h1.2⟩

lemma updateData_keys (now : ℤ) (st : GCState) (index : String)
    (data : Option JSObj) :
    (updateData now st index data).dataMap.map Prod.fst
        = st.dataMap.map Prod.fst ∧
    (updateData now st index data).garbageTimeDiff = st.garbageTimeDiff := by
  rw [updateData]
  cases h : mapGet st.dataMap index with
  | none => exact ⟨rfl, rfl⟩
  | some c =>
    cases data with
    | none => exact ⟨keys_mapSet_of_has _ _ _ (by simp [mapHas, h]), rfl⟩
    | some d =>
      simp only []
      have hadd := foldl_keys_const (fun s t => addReference s t index)
        (fun s t => addReference_keys s t index)
      have hrm := foldl_keys_const (fun s t => removeReference s t index)
        (fun s t => removeReference_keys s t index)
      refine ⟨?_, ?_⟩
      · rw [(hrm _ _).1, (hadd _ _).1]
        have h2 : mapHas st.dataMap index = true := by simp [mapHas, h]
        calc ((mapSet (mapSet st.dataMap index _) index _).map Prod.fst)
            = (mapSet st.dataMap index _).map Prod.fst := by
              apply keys_mapSet_of_has
              rw [mapHas_mapSet]
              simp
          _ = st.dataMap.map Prod.fst := keys_mapSet_of_has _ _ _ h2
      · rw [(hrm _ _).2, (hadd _ _).2]

/-! ## Lemmas: one worker step -/

lemma mapHas_of_keys_eq {α : Type} {m1 m2 : List (String × α)}
    (h : m1.map Prod.fst = m2.map Prod.fst) (i : String) :
    mapHas m1 i = mapHas m2 i := by
  by_cases h2 : mapHas m2 i = true
  · rw [h2]
    rw [mapHas_iff_mem_keys] at h2 ⊢
    rw [h]
    exact h2
  · have h3 : mapHas m2 i = false := by simpa using h2
    rw [h3]
    apply mapHas_false_of_sublist (by rw [h]) h3

lemma stepInput_spec (now : ℤ) (st : GCState) (inp : GCInput)
    (hnd : (st.dataMap.map Prod.fst).Nodup) :
    ((stepInput now st inp).1.dataMap.map Prod.fst).Nodup ∧
    (∀ id, mapHas (stepInput now st inp).1.dataMap id = true →
        mapHas st.dataMap id = true ∨ inputCreates (now, inp) id = true) ∧
    (∀ id, countDelete (stepInput now st inp).2 id ≤ 1) ∧
    (∀ id, 1 ≤ countDelete (stepInput now st inp).2 id →
        mapHas st.dataMap id = true ∧
        mapHas (stepInput now st inp).1.dataMap id = false) := by
  cases inp with
  | tick =>
    have h := garbageCollect_spec now st hnd
    obtain ⟨hsub, _, hcnt, hdel⟩ := h
    refine ⟨hsub.nodup hnd, ?_, hcnt, fun id h2 => hdel id h2⟩
    intro id h2
    left
    rw [mapHas_iff_mem_keys] at h2 ⊢
    exact hsub.mem h2
  | msg c =>
    cases c with
    | createCmd i content =>
      refine ⟨nodup_keys_mapSet _ _ _ hnd, ?_, ?_, ?_⟩
      · intro id h2
        have h3 : mapHas (mapSet st.dataMap i ⟨now, [], [], []⟩) id
            = (mapHas st.dataMap id || decide (i = id)) :=
          mapHas_mapSet st.dataMap i id _
        rw [show (stepInput now st (GCInput.msg (GCCommand.createCmd i content))).1
              = initialiseData now st i from rfl] at h2
        rw [initialiseData] at h2
        rw [h3] at h2
        rcases Bool.or_eq_true_iff.mp h2 with h4 | h4
        · exact Or.inl h4
        · right
          simpa [inputCreates] using of_decide_eq_true h4
      · intro id
        simp [stepInput, inputOutcome, handleMessage, GCOutcome.events, countDelete]
      · intro id h2
        simp [stepInput, inputOutcome, handleMessage, GCOutcome.events, countDelete] at h2
    | updateCmd i content =>
      have h := updateData_keys now st i content
      have he : (stepInput now st (GCInput.msg (GCCommand.updateCmd i content))).1
          = updateData now st i content := rfl
      refine ⟨by rw [he, h.1]; exact hnd, ?_, ?_, ?_⟩
      · intro id h2
        left
        rw [he] at h2
        rw [mapHas_of_keys_eq h.1] at h2
        exact h2
      · intro id
        simp [stepInput, inputOutcome, handleMessage, GCOutcome.events, countDelete]
      · intro id h2
        simp [stepInput, inputOutcome, handleMessage, GCOutcome.events, countDelete] at h2
    | disposeCmd i =>
      have h := disposeData_spec st i hnd
      obtain ⟨hsub, _, hcnt, hdel⟩ := h
      have he : (stepInput now st (GCInput.msg (GCCommand.disposeCmd i))).1
          = (disposeData st i).state := rfl
      have he2 : (stepInput now st (GCInput.msg (GCCommand.disposeCmd i))).2
          = (disposeData st i).events := rfl
      rw [he, he2]
      refine ⟨hsub.nodup hnd, ?_, hcnt, ?_⟩
      · intro id h2
        left
        rw [mapHas_iff_mem_keys] at h2 ⊢
        exact hsub.mem h2
      · intro id h2
        have h3 := hdel id h2
        exact ⟨h3.2.1 ▸ h3.1, h3.2.2⟩
    | timeCmd v =>
      refine ⟨hnd, ?_, ?_, ?_⟩
      · intro id h2
        exact Or.inl h2
      · intro id
        simp [stepInput, inputOutcome, handleMessage, GCOutcome.events, countDelete]
      · intro id h2
        simp [stepInput, inputOutcome, handleMessage, GCOutcome.events, countDelete] at h2
    | flushCmd =>
      have h := garbageCollect_spec now { st with garbageTimeDiff := 0 }
        (by simpa using hnd)
      obtain ⟨hsub, _, hcnt, hdel⟩ := h
      cases h2 : garbageCollect now { st with garbageTimeDiff := 0 } with
      | ok s2 evs =>
        rw [h2] at hsub hcnt hdel
        simp only [GCOutcome.state, GCOutcome.events] at hsub hcnt hdel
        have he : (stepInput now st (GCInput.msg GCCommand.flushCmd)).1
            = { s2 with garbageTimeDiff := st.garbageTimeDiff } := by
          simp [stepInput, inputOutcome, handleMessage, h2, GCOutcome.state]
        have he2 : (stepInput now st (GCInput.msg GCCommand.flushCmd)).2 = evs := by
          simp [stepInput, inputOutcome, handleMessage, h2, GCOutcome.events]
        rw [he, he2]
        refine ⟨hsub.nodup (by simpa using hnd), ?_, hcnt, ?_⟩
        · intro id h3
          left
          rw [mapHas_iff_mem_keys] at h3 ⊢
          simpa using hsub.mem (by simpa using h3)
        · intro id h3
          have h4 := hdel id h3
          exact ⟨by simpa using h4.1, by simpa using h4.2⟩
      | crash s2 evs =>
        rw [h2] at hsub hcnt hdel
        simp only [GCOutcome.state, GCOutcome.events] at hsub hcnt hdel
        have he : (stepInput now st (GCInput.msg GCCommand.flushCmd)).1 = s2 := by
          simp [stepInput, inputOutcome, handleMessage, h2, GCOutcome.state]
        have he2 : (stepInput now st (GCInput.msg GCCommand.flushCmd)).2 = evs := by
          simp [stepInput, inputOutcome, handleMessage, h2, GCOutcome.events]
        rw [he, he2]
        refine ⟨hsub.nodup (by simpa using hnd), ?_, hcnt, ?_⟩
        · intro id h3
          left
          rw [mapHas_iff_mem_keys] at h3 ⊢
          simpa using hsub.mem (by simpa using h3)
        · intro id h3
          have h4 := hdel id h3
          exact ⟨by simpa using h4.1, by simpa using h4.2⟩

/-! ## Lemmas: full runs of the worker -/

lemma runGC_cons (st : GCState) (p : ℤ × GCInput) (rest : List (ℤ × GCInput)) :
    runGC st (p :: rest)
      = ((runGC (stepInput p.1 st p.2).1 rest).1,
         (stepInput p.1 st p.2).2 ++ (runGC (stepInput p.1 st p.2).1 rest).2) :=
  rfl

lemma runGC_nodelete :
    ∀ (inputs : List (ℤ × GCInput)) (st : GCState) (id : String),
      (st.dataMap.map Prod.fst).Nodup →
      mapHas st.dataMap id = false →
      createCount inputs id = 0 →
      countDelete (runGC st inputs).2 id = 0 ∧
      mapHas (runGC st inputs).1.dataMap id = false ∧
      ((runGC st inputs).1.dataMap.map Prod.fst).Nodup := by
  intro inputs
  induction inputs with
  | nil => intro st id hnd h1 _; exact ⟨rfl, h1, hnd⟩
  | cons p rest ih =>
    intro st id hnd h1 h2
    obtain ⟨now, inp⟩ := p
    have hs := stepInput_spec now st inp hnd
    have hc : inputCreates (now, inp) id = false ∧ createCount rest id = 0 := by
      rw [createCount] at h2
      by_cases h3 : inputCreates (now, inp) id = true
      · rw [if_pos h3] at h2; omega
      · exact ⟨by simpa using h3, by rw [if_neg h3] at h2; omega⟩
    have hstep0 : countDelete (stepInput now st inp).2 id = 0 := by
      by_contra h3
      have h4 := (hs.2.2.2 id (by omega)).1
      rw [h4] at h1
      simp at h1
    have hhas : mapHas (stepInput now st inp).1.dataMap id = false := by
      by_contra h3
      rcases hs.2.1 id (by simpa using h3) with h4 | h4
      · rw [h4] at h1; simp at h1
      · rw [h4] at hc; simp at hc
    have h5 := ih (stepInput now st inp).1 id hs.1 hhas hc.2
    rw [runGC_cons, countDelete_append]
    exact ⟨by rw [hstep0, h5.1], h5.2.1, h5.2.2⟩

lemma runGC_count :
    ∀ (inputs : List (ℤ × GCInput)) (st : GCState) (id : String) (k : ℕ),
      (st.dataMap.map Prod.fst).Nodup →
      (mapHas st.dataMap id = true → 1 ≤ k) →
      k + createCount inputs id ≤ 1 →
      countDelete (runGC st inputs).2 id ≤ 1 := by
  intro inputs
  induction inputs with
  | nil => intro st id k _ _ _; simp [runGC, countDelete]
  | cons p rest ih =>
    intro st id k hnd h1 h2
    obtain ⟨now, inp⟩ := p
    have hs := stepInput_spec now st inp hnd
    have hrc : countDelete (runGC st ((now, inp) :: rest)).2 id
        = countDelete (stepInput now st inp).2 id
          + countDelete (runGC (stepInput now st inp).1 rest).2 id := by
      rw [show runGC st ((now, inp) :: rest)
            = ((runGC (stepInput now st inp).1 rest).1,
               (stepInput now st inp).2
                 ++ (runGC (stepInput now st inp).1 rest).2) from rfl]
      exact countDelete_append _ _ _
    rw [hrc]
    by_cases h3 : 1 ≤ countDelete (stepInput now st inp).2 id
    · have h4 := hs.2.2.2 id h3
      have h5 : 1 ≤ k := h1 h4.1
      have h6 : createCount rest id = 0 := by
        rw [createCount] at h2
        by_cases h7 : inputCreates (now, inp) id = true
        · rw [if_pos h7] at h2; omega
        · rw [if_neg h7] at h2; omega
      have h8 := runGC_nodelete rest (stepInput now st inp).1 id hs.1 h4.2 h6
      have h9 := hs.2.2.1 id
      omega
    · have h4 : countDelete (stepInput now st inp).2 id = 0 := by omega
      have h5 : mapHas (stepInput now st inp).1.dataMap id = true →
          1 ≤ k + (if inputCreates (now, inp) id then 1 else 0) := by
        intro h6
        rcases hs.2.1 id h6 with h7 | h7
        · have := h1 h7; omega
        · rw [h7]; simp
      have h6 : k + (if inputCreates (now, inp) id then 1 else 0)
          + createCount rest id ≤ 1 := by
        rw [createCount] at h2; omega
      have h7 := ih (stepInput now st inp).1 id
        (k + (if inputCreates (now, inp) id then 1 else 0)) hs.1 h5 h6
      omega

/-! ## Lemmas: the sweep never touches the threshold -/

lemma disposeData_gtd (st : GCState) (index : String) :
    (disposeData st index).state.garbageTimeDiff = st.garbageTimeDiff := by
  cases h : mapGet st.dataMap index with
  | none => simp [disposeData, h, GCOutcome.state]
  | some c =>
    have hl := disposeLoop_spec index c.references st []
    cases h2 : disposeLoop index st [] c.references with
    | ok st2 evs =>
      rw [h2] at hl
      simp only [GCOutcome.state] at hl
      simp only [disposeData, h, h2, GCOutcome.state]
      exact hl.2.1
    | crash st2 evs =>
      rw [h2] at hl
      simp only [GCOutcome.state] at hl
      simp only [disposeData, h, h2, GCOutcome.state]
      exact hl.2.1

lemma sweepStep_gtd (now : ℤ) (o : GCOutcome) (k : String) :
    (sweepStep now o k).state.garbageTimeDiff = o.state.garbageTimeDiff := by
  cases o with
  | crash s e => rfl
  | ok s e =>
    simp only [sweepStep]
    cases h : mapGet s.dataMap k with
    | none => rfl
    | some c =>
      by_cases h2 : shouldBeCollected now s.garbageTimeDiff c
      · simp only [if_pos h2]
        have h3 := disposeData_gtd s k
        cases h4 : disposeData s k with
        | ok s2 e2 =>
          rw [h4] at h3
          simpa [GCOutcome.state] using h3
        | crash s2 e2 =>
          rw [h4] at h3
          simpa [GCOutcome.state] using h3
      · simp only [if_neg h2]

lemma garbageCollect_gtd (now : ℤ) (st : GCState) :
    (garbageCollect now st).state.garbageTimeDiff = st.garbageTimeDiff := by
  rw [garbageCollect]
  have h : ∀ (ks : List String) (o : GCOutcome),
      ((ks.foldl (sweepStep now) o).state.garbageTimeDiff
        = o.state.garbageTimeDiff) := by
    intro ks
    induction ks with
    | nil => intro o; rfl
    | cons k rest ih =>
      intro o
      rw [List.foldl_cons, ih (sweepStep now o k), sweepStep_gtd]
  exact h _ (GCOutcome.ok st [])

/-! ## Lemmas: the store's update path -/

lemma mapSet_self {α : Type} {m : List (String × α)} {i : String} {v : α}
    (h : mapGet m i = some v) : mapSet m i v = m := by
  induction m with
  | nil => simp [mapGet] at h
  | cons kv rest ih =>
    obtain ⟨k, w⟩ := kv
    by_cases h2 : k = i
    · subst h2
      rw [mapGet, if_pos rfl] at h
      injection h with h3
      subst h3
      simp [mapSet]
    · rw [mapGet, if_neg h2] at h
      simp [mapSet, h2, ih h]

lemma mapSet_mapSet {α : Type} (m : List (String × α)) (i : String) (v w : α) :
    mapSet (mapSet m i v) i w = mapSet m i w := by
  induction m with
  | nil => simp [mapSet]
  | cons kv rest ih =>
    obtain ⟨k, u⟩ := kv
    by_cases h : k = i <;> simp [mapSet, h, ih]

lemma resolveIndex_dataMap_irrel (st : StoreState)
    (dm : List (String × SVal)) (ref : StoreRef) :
    resolveIndex { st with dataMap := dm } ref = resolveIndex st ref := by
  cases ref <;> rfl

lemma lookupData_some_inv {st : StoreState} {oi : Option String} {r : JSObj}
    (h : lookupData st oi = some r) :
    ∃ i, oi = some i ∧ i ≠ "" ∧ mapGet st.dataMap i = some (SVal.recObj r) := by
  cases oi with
  | none => simp [lookupData] at h
  | some i =>
    refine ⟨i, rfl, ?_, ?_⟩
    · intro h2
      rw [lookupData, if_pos h2] at h
      simp at h
    · by_cases h2 : i = ""
      · rw [lookupData, if_pos h2] at h; simp at h
      · rw [lookupData, if_neg h2] at h
        cases h3 : mapGet st.dataMap i with
        | none => rw [h3] at h; simp at h
        | some sv =>
          rw [h3] at h
          cases sv with
          | undefV => simp at h
          | recObj r2 => simp at h; rw [h]

lemma storeSet_known {st : StoreState} {ref : StoreRef} {i : String} {r : JSObj}
    (h1 : resolveIndex st ref = some i) (h2 : i ≠ "")
    (h3 : mapGet st.dataMap i = some (SVal.recObj r))
    (property : String) (value : JSVal) :
    storeSet st ref property value
      = ({ st with dataMap := mapSet st.dataMap i (SVal.recObj (mapSet r property value)) },
         [GCCommand.updateCmd i (some [(property, value)])]) := by
  rw [storeSet, h1]
  simp only [if_neg h2, h3]

lemma storeSet_unknown {st : StoreState} {ref : StoreRef}
    (h : lookupData st (resolveIndex st ref) = none)
    (property : String) (value : JSVal) :
    storeSet st ref property value = (st, []) := by
  rw [storeSet]
  cases h1 : resolveIndex st ref with
  | none => rfl
  | some i =>
    rw [h1] at h
    by_cases h2 : i = ""
    · simp only [if_pos h2]
    · rw [lookupData, if_neg h2] at h
      simp only [if_neg h2]
      cases h3 : mapGet st.dataMap i with
      | none => rfl
      | some sv =>
        rw [h3] at h
        cases sv with
        | undefV => rfl
        | recObj r2 => simp at h

lemma storeUpdateCore_known {st : StoreState} {ref : StoreRef} {i : String}
    {r : JSObj} (h1 : resolveIndex st ref = some i) (h2 : i ≠ "")
    (h3 : mapGet st.dataMap i = some (SVal.recObj r)) (content : JSObj) :
    storeUpdateCore st ref content
      = ({ st with dataMap := mapSet st.dataMap i (SVal.recObj (objAssign r content)) },
         [GCCommand.updateCmd i (some (objAssign r content))]) := by
  rw [storeUpdateCore, h1]
  simp only [if_neg h2, h3]

lemma storeUpdateCore_unknown {st : StoreState} {ref : StoreRef}
    (h : lookupData st (resolveIndex st ref) = none) (content : JSObj) :
    storeUpdateCore st ref content = (st, []) := by
  rw [storeUpdateCore]
  cases h1 : resolveIndex st ref with
  | none => rfl
  | some i =>
    rw [h1] at h
    by_cases h2 : i = ""
    · simp only [if_pos h2]
    · rw [lookupData, if_neg h2] at h
      simp only [if_neg h2]
      cases h3 : mapGet st.dataMap i with
      | none => rfl
      | some sv =>
        rw [h3] at h
        cases sv with
        | undefV => rfl
        | recObj r2 => simp at h

lemma storeSetEach_acc (ref : StoreRef) :
    ∀ (content : JSObj) (st : StoreState) (cs : List GCCommand),
      content.foldl (fun acc kv =>
          let r := storeSet acc.1 ref kv.1 kv.2
          (r.1, acc.2 ++ r.2)) (st, cs)
        = ((storeSetEach st ref content).1,
           cs ++ (storeSetEach st ref content).2) := by
  intro content
  induction content with
  | nil => intro st cs; simp [storeSetEach]
  | cons kv rest ih =>
    intro st cs
    simp only [storeSetEach, List.foldl_cons]
    rw [ih, ih]
    simp

lemma storeSetEach_unknown (ref : StoreRef) :
    ∀ (content : JSObj) (st : StoreState),
      lookupData st (resolveIndex st ref) = none →
      storeSetEach st ref content = (st, []) := by
  intro content
  induction content with
  | nil => intro st _; rfl
  | cons kv rest ih =>
    intro st h
    have h2 := storeSet_unknown h kv.1 kv.2
    simp only [storeSetEach, List.foldl_cons, h2]
    rw [storeSetEach_acc]
    have h3 := ih st h
    rw [h3]
    rfl

lemma storeSetEach_known (ref : StoreRef) :
    ∀ (content : JSObj) (st : StoreState) (i : String) (r : JSObj),
      resolveIndex st ref = some i → i ≠ "" →
      mapGet st.dataMap i = some (SVal.recObj r) →
      (storeSetEach st ref content).1
        = { st with dataMap := mapSet st.dataMap i (SVal.recObj (objAssign r content)) } := by
  intro content
  induction content with
  | nil =>
    intro st i r h1 h2 h3
    have h4 : objAssign r [] = r := rfl
    rw [h4, mapSet_self h3]
    rfl
  | cons kv rest ih =>
    intro st i r h1 h2 h3
    have hset := storeSet_known h1 h2 h3 kv.1 kv.2
    have hst1 : resolveIndex { st with dataMap := mapSet st.dataMap i (SVal.recObj (mapSet r kv.1 kv.2)) } ref = some i := by
      rw [resolveIndex_dataMap_irrel]
      exact h1
    have hget1 : mapGet (mapSet st.dataMap i (SVal.recObj (mapSet r kv.1 kv.2))) i
        = some (SVal.recObj (mapSet r kv.1 kv.2)) :=
      mapGet_mapSet_self _ _ _
    have hih := ih { st with dataMap := mapSet st.dataMap i (SVal.recObj (mapSet r kv.1 kv.2)) } i (mapSet r kv.1 kv.2) hst1 h2 hget1
    simp only [storeSetEach, List.foldl_cons, hset]
    rw [storeSetEach_acc]
    simp only []
    rw [show (storeSetEach { st with dataMap := mapSet st.dataMap i (SVal.recObj (mapSet r kv.1 kv.2)) } ref rest).1 = _ from hih]
    simp only [mapSet_mapSet]
    rfl

/-! ## Claim theorems -/

/-- **C1**: the claim says that on `dispose{x}` the Collector rewrites every
*referrer* `m` with `x ∈ outgoing(m)` (nulling the occurrence) and emits
`updated{m}` before `delete{x}`, so that after `create a; create b with
{ref: a}; dispose a` a read of `b.ref` yields `null`.  The code instead
walks the *outgoing* references of the disposed node: running the exact
scenario, disposing `a` (referenced by `b`) emits only `delete{a}` — no
`updated{b}` — and leaves `b`'s snapshot still holding `"a"` and `b`'s
outgoing list still `["a"]`. -/
theorem dispose_rewrites_targets_not_referrers :
    runGC (initGC 1000) c1Inputs
      = (⟨[("b", ⟨0, [("ref", JSVal.str "a")], ["a"], []⟩)], 1000⟩,
         [GCEvent.deleteMsg "a"]) := rfl

/-- **C2**: the claim says a node created with the keepAlive/pinned flag
`true` is never removed by the timed sweep.  `MemoryManager.create` takes
only `(object, content)`, so the third argument of the tests'
`Memory.create(ref, null, true)` is dropped, no pin information reaches the
worker, and `shouldBeCollected` checks only the incoming list and the age:
a node created (with `keepAlive = true` or `false` alike) at time `0`
under threshold `100` is swept by the tick at time `101`. -/
theorem keepalive_flag_ignored_node_swept :
    storeCreateKeepAlive "a" initStore 1 none true
        = storeCreate "a" initStore 1 none ∧
    storeCreateKeepAlive "a" initStore 1 none false
        = storeCreate "a" initStore 1 none ∧
    runGC (initGC 0)
      [(0, GCInput.msg (GCCommand.timeCmd 100)),
       (0, GCInput.msg (GCCommand.createCmd "a" [("id", JSVal.str "a")])),
       (101, GCInput.tick)]
      = (⟨[], 100⟩, [GCEvent.deleteMsg "a"]) :=
  ⟨rfl, rfl, rfl⟩

/-- **C3** (counterexample): the claim says `create` sends
`create{id, pinned}` and then forwards the creation content via a
subsequent `update` command, through which the content reaches the
Collector's snapshot.  In the code, `create` of a fresh carrier posts
exactly one command — `create{id, content}` with the content inlined and
no pinned field — and the worker's `initialiseData` ignores that content:
the new node's snapshot and outgoing list stay empty, and the existing
node `a` named by the content gains no incoming entry. -/
theorem create_content_never_reaches_collector :
    (storeCreate "b" st3 2 (some [("ref", JSVal.str "a")])).2
      = [GCCommand.createCmd "b" [("id", JSVal.str "b"), ("ref", JSVal.str "a")]] ∧
    stepInput 5 gcWithA
      (GCInput.msg (GCCommand.createCmd "b"
        [("id", JSVal.str "b"), ("ref", JSVal.str "a")]))
      = (⟨[("a", ⟨0, [], [], []⟩), ("b", ⟨5, [], [], []⟩)], 100⟩, []) :=
  ⟨rfl, rfl⟩

/-- **C3** (amended): for a carrier not yet correlated, `create` allocates
the fresh id, registers the correlation, stores `{id} ∪ content` as the
record, and posts a *single* `create{id, content}` command (no pinned
field, no follow-up `update`); the Collector's `create` handler inserts a
fresh node with empty snapshot, empty outgoing/incoming and
`timestamp = now`, ignoring the carried content. -/
theorem create_fresh_posts_single_create (fresh : String) (st : StoreState)
    (carrier : Nat) (content : JSObj) (h : carrierLookup st carrier = none) :
    storeCreate fresh st carrier (some content)
      = ({ st with
            indexReference := mapSet st.indexReference fresh carrier,
            dataMap := mapSet st.dataMap fresh (SVal.recObj (objAssign [("id", JSVal.str fresh)] content)) },
         [GCCommand.createCmd fresh (objAssign [("id", JSVal.str fresh)] content)]) ∧
    ∀ (now : ℤ) (gst : GCState) (cont : JSObj),
      handleMessage now gst (GCCommand.createCmd fresh cont)
        = GCOutcome.ok { gst with dataMap := mapSet gst.dataMap fresh ⟨now, [], [], []⟩ } [] := by
  constructor
  · simp [storeCreate, h]
  · intro now gst cont
    rfl

/-- Witness for `create_fresh_posts_single_create` at a concrete fresh
carrier. -/
theorem create_fresh_posts_single_create_witness :
    (storeCreate "a" initStore 1 (some [])
      = ({ initStore with
            indexReference := mapSet initStore.indexReference "a" 1,
            dataMap := mapSet initStore.dataMap "a" (SVal.recObj (objAssign [("id", JSVal.str "a")] [])) },
         [GCCommand.createCmd "a" (objAssign [("id", JSVal.str "a")] [])])) ∧
    ∀ (now : ℤ) (gst : GCState) (cont : JSObj),
      handleMessage now gst (GCCommand.createCmd "a" cont)
        = GCOutcome.ok { gst with dataMap := mapSet gst.dataMap "a" ⟨now, [], [], []⟩ } [] :=
  create_fresh_posts_single_create "a" initStore 1 [] rfl

/-- **C4**: the claim says an `updated{id, content}` event makes the Store
replace its cached record for `id` with the carried content, so a later
`get` returns the rewritten values.  The worker posts the payload under
the key `"data"` while the Store's listener reads `event.data.content`,
which is `undefined`: after the event, the cached value for `"b"` is
`undefined` and `get(b, "ref")` returns `undefined` (and, the record being
falsy, posts no touch command). -/
theorem updated_event_caches_undefined :
    (storeOnEvent st4 (wireOfEvent (GCEvent.updated "b" [("ref", JSVal.null)]))).dataMap
      = [("b", SVal.undefV)] ∧
    storeGet (storeOnEvent st4 (wireOfEvent (GCEvent.updated "b" [("ref", JSVal.null)])))
      (Sum.inl "b") "ref" = (JSVal.undef, []) :=
  ⟨rfl, rfl⟩

/-- **C5** (counterexample): the claim says that during a `flush` sweep age
no longer gates eligibility — only pinning and an empty incoming list
matter.  With the threshold zeroed the worker still requires
`now − timestamp > 0`: a node with empty incoming list whose timestamp
equals the flush instant is *not* collected — the flush returns the state
unchanged and emits nothing. -/
theorem flush_spares_untouched_unreferenced_node :
    (mapGet c5State.dataMap "a").map GCNode.referenced = some [] ∧
    handleMessage 5 c5State GCCommand.flushCmd = GCOutcome.ok c5State [] :=
  ⟨rfl, rfl⟩

/-- **C5** (amended): `flush()` (modelled from the spec, the method being
absent from the given store source) posts the bare `flush` command; the
worker's `flush` handler performs one sweep pass with the threshold
treated as zero — a node is then eligible iff its incoming list is empty
and `now − timestamp > 0` — and, when the pass completes normally,
restores the previously configured threshold.  The tick cadence is the
constant `tickInterval`, untouched by any handler. -/
theorem flush_zero_threshold_sweep (st : GCState) (now : ℤ) :
    storeFlush = [GCCommand.flushCmd] ∧
    (∀ c : GCNode, shouldBeCollected now 0 c
        = (c.referenced.isEmpty && decide (0 < now - c.timestamp))) ∧
    (∀ (st2 : GCState) (evs : List GCEvent),
      handleMessage now st GCCommand.flushCmd = GCOutcome.ok st2 evs →
      st2.garbageTimeDiff = st.garbageTimeDiff ∧
      garbageCollect now { st with garbageTimeDiff := 0 }
        = GCOutcome.ok { st2 with garbageTimeDiff := 0 } evs) := by
  refine ⟨rfl, ?_, ?_⟩
  · intro c
    rw [shouldBeCollected]
    cases h : c.referenced <;> simp [h]
  · intro st2 evs h
    have hg := garbageCollect_gtd now { st with garbageTimeDiff := 0 }
    cases hgc : garbageCollect now { st with garbageTimeDiff := 0 } with
    | ok s2 evs2 =>
      rw [hgc] at hg
      simp only [GCOutcome.state] at hg
      simp only [handleMessage, hgc] at h
      obtain ⟨h1, h2⟩ := GCOutcome.ok.inj h
      subst h2
      refine ⟨by rw [← h1], ?_⟩
      rw [← h1]
      obtain ⟨dm, g⟩ := s2
      simp only at hg
      rw [hg]
    | crash s2 evs2 =>
      simp only [handleMessage, hgc] at h
      exact absurd h (by simp)

/-- Witness for `flush_zero_threshold_sweep`: flushing an empty worker. -/
theorem flush_zero_threshold_sweep_witness :
    (initGC 7).garbageTimeDiff = (initGC 7).garbageTimeDiff ∧
    garbageCollect 0 { initGC 7 with garbageTimeDiff := 0 }
      = GCOutcome.ok { initGC 7 with garbageTimeDiff := 0 } [] :=
  (flush_zero_threshold_sweep (initGC 7) 0).2.2 (initGC 7) [] rfl

/-- **C6** (counterexample): the claim says incoming edges are coalesced —
one entry per distinct referrer.  Storing the same target twice in one
record (`m.p = t`, `m.q = t`) leaves *two* entries for `m` in `t`'s
incoming list. -/
theorem incoming_entries_not_coalesced :
    (mapGet (runGC (initGC 1000) c6Inputs).1.dataMap "t").map GCNode.referenced
      = some ["m", "m"] := rfl

/-- **C6** (amended): edges carry multiplicity, not set semantics:
`diffReferences` computes the *multiset* difference in both directions
(occurrence counts subtract truncatedly), and `addReference` pushes one
incoming entry per call, i.e. one per occurrence of the target in the
referrer's data. -/
theorem edges_use_multiset_semantics :
    (∀ (initial final : List String) (a : String),
      countStr (diffReferences initial final).1 a
          = countStr final a - countStr initial a ∧
      countStr (diffReferences initial final).2 a
          = countStr initial a - countStr final a) ∧
    (∀ (s : GCState) (t i : String) (c : GCNode),
      mapGet s.dataMap t = some c →
      addReference s t i
        = { s with dataMap := mapSet s.dataMap t ({ c with referenced := c.referenced ++ [i] }) }) := by
  constructor
  · exact diffReferences_count
  · intro s t i c h
    rw [addReference, h]

/-- Witness for `edges_use_multiset_semantics` at concrete lists and a
concrete one-node state. -/
theorem edges_use_multiset_semantics_witness :
    (countStr (diffReferences ["t"] ["t", "t"]).1 "t"
        = countStr ["t", "t"] "t" - countStr ["t"] "t" ∧
     countStr (diffReferences ["t"] ["t", "t"]).2 "t"
        = countStr ["t"] "t" - countStr ["t", "t"] "t") ∧
    addReference gcWithA "a" "m"
      = { gcWithA with dataMap := mapSet gcWithA.dataMap "a" ({ (⟨0, [], [], []⟩ : GCNode) with referenced := [] ++ ["m"] }) } :=
  ⟨edges_use_multiset_semantics.1 ["t"] ["t", "t"] "t",
   edges_use_multiset_semantics.2 gcWithA "a" "m" ⟨0, [], [], []⟩ rfl⟩

/-- **C7** (counterexample): the claim says `update(ref, content)` sends the
same messages to the Collector as applying `set` per key.  On a record
`{id: "x"}` with `content = {k: 1}`, `update` posts one command carrying
the full merged record (`id` included) while the per-key `set` posts one
command carrying only `{k: 1}` — the traces differ. -/
theorem update_message_trace_differs :
    (storeUpdateCore st7 (Sum.inr 7) [("k", JSVal.num 1)]).2
      ≠ (storeSetEach st7 (Sum.inr 7) [("k", JSVal.num 1)]).2 := by
  intro h
  have h1 : (storeUpdateCore st7 (Sum.inr 7) [("k", JSVal.num 1)]).2
      = [GCCommand.updateCmd "x" (some [("id", JSVal.str "x"), ("k", JSVal.num 1)])] := rfl
  have h2 : (storeSetEach st7 (Sum.inr 7) [("k", JSVal.num 1)]).2
      = [GCCommand.updateCmd "x" (some [("k", JSVal.num 1)])] := rfl
  rw [h1, h2] at h
  have h3 : (2 : ℕ) = 1 :=
    congrArg (fun l =>
      match l with
      | [GCCommand.updateCmd _ (some o)] => o.length
      | _ => 0) h
  exact absurd h3 (by decide)

/-- **C7** (amended): for a known id, `update(ref, content)` leaves the
Store in exactly the state that applying `set` for each key of `content`
in enumeration order does, and both are no-ops when the id is unknown; but
`update` posts a single `update{id, mergedFullRecord}` command instead of
one single-key command per property. -/
theorem update_merges_like_per_key_sets (st : StoreState) (ref : StoreRef)
    (content : JSObj) :
    (storeUpdateCore st ref content).1 = (storeSetEach st ref content).1 ∧
    (∀ (i : String) (r : JSObj), resolveIndex st ref = some i → i ≠ "" →
      mapGet st.dataMap i = some (SVal.recObj r) →
      (storeUpdateCore st ref content).2
        = [GCCommand.updateCmd i (some (objAssign r content))]) ∧
    (lookupData st (resolveIndex st ref) = none →
      storeUpdateCore st ref content = (st, []) ∧
      storeSetEach st ref content = (st, [])) := by
  refine ⟨?_, ?_, ?_⟩
  · cases h : lookupData st (resolveIndex st ref) with
    | none =>
      rw [storeUpdateCore_unknown h content, storeSetEach_unknown ref content st h]
    | some r =>
      obtain ⟨i, h1, h2, h3⟩ := lookupData_some_inv h
      rw [storeUpdateCore_known h1 h2 h3 content,
        storeSetEach_known ref content st i r h1 h2 h3]
  · intro i r h1 h2 h3
    rw [storeUpdateCore_known h1 h2 h3 content]
  · intro h
    exact ⟨storeUpdateCore_unknown h content, storeSetEach_unknown ref content st h⟩

/-- Witness for `update_merges_like_per_key_sets` at a known and at an
unknown id. -/
theorem update_merges_like_per_key_sets_witness :
    (storeUpdateCore st7 (Sum.inr 7) [("k", JSVal.num 1)]).1
      = (storeSetEach st7 (Sum.inr 7) [("k", JSVal.num 1)]).1 ∧
    (storeUpdateCore st7 (Sum.inr 7) [("k", JSVal.num 1)]).2
      = [GCCommand.updateCmd "x" (some (objAssign [("id", JSVal.str "x")] [("k", JSVal.num 1)]))] ∧
    (storeUpdateCore initStore (Sum.inl "z") [("k", JSVal.num 1)] = (initStore, []) ∧
     storeSetEach initStore (Sum.inl "z") [("k", JSVal.num 1)] = (initStore, [])) :=
  ⟨(update_merges_like_per_key_sets st7 (Sum.inr 7) [("k", JSVal.num 1)]).1,
   (update_merges_like_per_key_sets st7 (Sum.inr 7) [("k", JSVal.num 1)]).2.1
     "x" [("id", JSVal.str "x")] rfl (by decide) rfl,
   (update_merges_like_per_key_sets initStore (Sum.inl "z") [("k", JSVal.num 1)]).2.2 rfl⟩

/-- **C8**: assigning `collectionTime` with a value whose `Number()`
coercion is `NaN` is ignored — state retained, nothing posted; a numeric
assignment stores `Math.round` of the value and posts `time{value}`, whose
handling replaces the worker's staleness threshold. -/
theorem collectionTime_assignment (st : StoreState) (n : Option ℚ) :
    (n = none → storeSetCollectionTime st n = (st, [])) ∧
    (∀ q : ℚ, n = some q →
      storeSetCollectionTime st n
        = ({ st with collectionTime := jsRound q }, [GCCommand.timeCmd (jsRound q)]) ∧
      ∀ (ws : GCState) (now : ℤ),
        handleMessage now ws (GCCommand.timeCmd (jsRound q))
          = GCOutcome.ok { ws with garbageTimeDiff := jsRound q } []) := by
  constructor
  · rintro rfl
    rfl
  · rintro q rfl
    exact ⟨rfl, fun ws now => rfl⟩

/-- Witness for `collectionTime_assignment`: a `NaN` assignment and the
numeric assignment `3/2`, which rounds to `2`. -/
theorem collectionTime_assignment_witness :
    storeSetCollectionTime initStore none = (initStore, []) ∧
    storeSetCollectionTime initStore (some (3 / 2))
      = ({ initStore with collectionTime := jsRound (3 / 2) },
         [GCCommand.timeCmd (jsRound (3 / 2))]) ∧
    jsRound (3 / 2) = 2 :=
  ⟨(collectionTime_assignment initStore none).1 rfl,
   ((collectionTime_assignment initStore (some (3 / 2))).2 (3 / 2) rfl).1,
   by norm_num [jsRound]⟩

/-- **C9**: the claim says the removal cascade never reads the fields of an
absent node and always terminates normally.  `disposeReference`
dereferences `dataMap.get(index)` without the guard its siblings have:
after the `c1Inputs` run removed `a`, node `b`'s stored outgoing list
still names `a`, and disposing `b` throws a `TypeError` while reading
`content.data` of the absent `a` — the handler crashes before deleting
`b` or posting any event. -/
theorem dispose_cascade_crashes_on_stale_reference :
    disposeReference c9State "a" "b" = none ∧
    handleMessage 2 c9State (GCCommand.disposeCmd "b")
      = GCOutcome.crash c9State [] :=
  ⟨rfl, rfl⟩

/-- **C10**: over any run whose `create` commands use each id at most once,
the worker emits `delete{id}` at most once per id; a `dispose` for an id
absent from the graph is a no-op returning the state unchanged with no
events; and whenever a step emits `delete{id}`, the id is already absent
from the step's resulting graph (the node is deleted from the map before
the event is posted). -/
theorem delete_emitted_at_most_once (inputs : List (ℤ × GCInput)) (g : ℤ)
    (hfresh : ∀ id, createCount inputs id ≤ 1) :
    (∀ id, countDelete (runGC (initGC g) inputs).2 id ≤ 1) ∧
    (∀ (st : GCState) (i : String), mapHas st.dataMap i = false →
      disposeData st i = GCOutcome.ok st []) ∧
    (∀ (now : ℤ) (st : GCState) (inp : GCInput) (id : String),
      (st.dataMap.map Prod.fst).Nodup →
      GCEvent.deleteMsg id ∈ (stepInput now st inp).2 →
      mapHas (stepInput now st inp).1.dataMap id = false) := by
  refine ⟨?_, ?_, ?_⟩
  · intro id
    apply runGC_count inputs (initGC g) id 0
    · simp [initGC]
    · intro h
      simp [initGC, mapHas, mapGet] at h
    · simpa using hfresh id
  · intro st i h
    rw [disposeData, mapGet_eq_none_of_not_has h]
  · intro now st inp id hnd hmem
    exact ((stepInput_spec now st inp hnd).2.2.2 id
      (countDelete_pos_of_mem hmem)).2

/-- Witness for `delete_emitted_at_most_once`: a run that creates `a` once
and disposes it twice. -/
theorem delete_emitted_at_most_once_witness :
    (∀ id, countDelete (runGC (initGC 0)
      [(0, GCInput.msg (GCCommand.createCmd "a" [])),
       (1, GCInput.msg (GCCommand.disposeCmd "a")),
       (2, GCInput.msg (GCCommand.disposeCmd "a"))]).2 id ≤ 1) ∧
    (∀ (st : GCState) (i : String), mapHas st.dataMap i = false →
      disposeData st i = GCOutcome.ok st []) ∧
    (∀ (now : ℤ) (st : GCState) (inp : GCInput) (id : String),
      (st.dataMap.map Prod.fst).Nodup →
      GCEvent.deleteMsg id ∈ (stepInput now st inp).2 →
      mapHas (stepInput now st inp).1.dataMap id = false) :=
  delete_emitted_at_most_once
    [(0, GCInput.msg (GCCommand.createCmd "a" [])),
     (1, GCInput.msg (GCCommand.disposeCmd "a")),
     (2, GCInput.msg (GCCommand.disposeCmd "a"))] 0
    (by
      intro id
      by_cases h : ("a" : String) = id <;>
        simp [createCount, inputCreates, h])

end MemMgr
